import Mathlib

/-!
The `graphql` command of linctl.

A shallow embedding of `cmd/graphql.go` (query resolution, variable resolution and the
command's `Run` body) together with the parts of the Go standard library it calls
(`strings.TrimSpace`, `strings.Join`, `encoding/json.Unmarshal` into a
`map[string]interface{}`), followed by the properties of the specification.

Go strings are modelled as sequences of Unicode code points (`List Char`), that is, as
valid UTF-8 text.
-/

set_option autoImplicit false
set_option maxRecDepth 100000

namespace Linctl

/-! ## Go values shared by the model -/

deriving instance DecidableEq for Except

/-- A Go `string`, as the sequence of its code points. -/
abbrev GoString := List Char

/-- A Go `error` value.  `errorf` is `fmt.Errorf` with a constant format, `wrap` is
`fmt.Errorf(pfx + "%w", cause)`, and the two remaining constructors are the error
types of `encoding/json` (`*json.SyntaxError`, `*json.UnmarshalTypeError`), with the
fields their `Error()` text is made of. -/
inductive GoError where
  | errorf (msg : String)
  | wrap (pfx : String) (cause : GoError)
  | syntaxError (msg : String)
  | unmarshalTypeError (Value : String) (GoType : String)
  deriving DecidableEq

/-- The `Error()` method: the message of an error value. -/
def GoError.Error : GoError → String
  | .errorf msg => msg
  | .wrap pfx cause => pfx ++ cause.Error
  | .syntaxError msg => msg
  | .unmarshalTypeError v t => "json: cannot unmarshal " ++ v ++ " into Go value of type " ++ t

/-- The `errors.Unwrap` of an error value. -/
def GoError.Unwrap : GoError → Option GoError
  | .wrap _ cause => some cause
  | _ => none

/-! ## `unicode` and `strings` -/

/-- The `unicode.IsSpace` predicate: the Latin-1 spaces `\t \n \v \f \r`, space, U+0085, U+00A0,
and the other code points of the Unicode `White_Space` property. -/
def unicode.IsSpace (r : Char) : Bool :=
  let n := r.toNat
  if n ≤ 0xFF then
    n == 0x09 || n == 0x0A || n == 0x0B || n == 0x0C || n == 0x0D || n == 0x20
      || n == 0x85 || n == 0xA0
  else
    n == 0x1680 || (0x2000 ≤ n && n ≤ 0x200A) || n == 0x2028 || n == 0x2029
      || n == 0x202F || n == 0x205F || n == 0x3000

/-- The `strings.TrimLeftFunc` function: drop the leading code points satisfying `f`. -/
def strings.TrimLeftFunc (s : GoString) (f : Char → Bool) : GoString :=
  s.dropWhile f

/-- The `strings.TrimRightFunc` function: drop the trailing code points satisfying `f`. -/
def strings.TrimRightFunc (s : GoString) (f : Char → Bool) : GoString :=
  s.rdropWhile f

/-- The `strings.TrimFunc` function. -/
def strings.TrimFunc (s : GoString) (f : Char → Bool) : GoString :=
  strings.TrimRightFunc (strings.TrimLeftFunc s f) f

/-- The `strings.TrimSpace` function: all leading and trailing white space removed, as
defined by Unicode. -/
def strings.TrimSpace (s : GoString) : GoString :=
  strings.TrimFunc s unicode.IsSpace

/-- The `strings.Join` function: the elements, with `sep` between consecutive ones. -/
def strings.Join : List GoString → GoString → GoString
  | [], _ => []
  | [a], _ => a
  | a :: b :: rest, sep => a ++ sep ++ strings.Join (b :: rest) sep

/-! ## `encoding/json`: the scanner (`scanner.go`)

The scanner is the byte-at-a-time state machine of `scanner.go`.  Here every transition
also records the value it has delimited, so that one pass yields both the verdict of
`checkValid` and the syntax tree the decoder walks.  The `Offset` fields of the error
types are not modelled: no code in this repository reads them. -/

/-- A JSON value as the scanner delimits it.  Number literals are kept as written,
string literals are kept unquoted, object members are kept in document order. -/
inductive JSON where
  | null
  | bool (b : Bool)
  | number (lit : GoString)
  | string (s : GoString)
  | array (elems : List JSON)
  | object (members : List (GoString × JSON))

mutual
/-- Equality of `JSON` values is decidable. -/
def JSON.decEq : (a b : JSON) → Decidable (a = b)
  | .null, .null => isTrue rfl
  | .bool x, .bool y =>
    if h : x = y then isTrue (by rw [h])
    else isFalse (by intro h1; cases h1; exact h rfl)
  | .number x, .number y =>
    if h : x = y then isTrue (by rw [h])
    else isFalse (by intro h1; cases h1; exact h rfl)
  | .string x, .string y =>
    if h : x = y then isTrue (by rw [h])
    else isFalse (by intro h1; cases h1; exact h rfl)
  | .array x, .array y =>
    match JSON.decEqList x y with
    | isTrue h => isTrue (by rw [h])
    | isFalse h => isFalse (by intro h1; cases h1; exact h rfl)
  | .object x, .object y =>
    match JSON.decEqMembers x y with
    | isTrue h => isTrue (by rw [h])
    | isFalse h => isFalse (by intro h1; cases h1; exact h rfl)
  | .null, .bool _ => isFalse (by intro h; cases h)
  | .null, .number _ => isFalse (by intro h; cases h)
  | .null, .string _ => isFalse (by intro h; cases h)
  | .null, .array _ => isFalse (by intro h; cases h)
  | .null, .object _ => isFalse (by intro h; cases h)
  | .bool _, .null => isFalse (by intro h; cases h)
  | .bool _, .number _ => isFalse (by intro h; cases h)
  | .bool _, .string _ => isFalse (by intro h; cases h)
  | .bool _, .array _ => isFalse (by intro h; cases h)
  | .bool _, .object _ => isFalse (by intro h; cases h)
  | .number _, .null => isFalse (by intro h; cases h)
  | .number _, .bool _ => isFalse (by intro h; cases h)
  | .number _, .string _ => isFalse (by intro h; cases h)
  | .number _, .array _ => isFalse (by intro h; cases h)
  | .number _, .object _ => isFalse (by intro h; cases h)
  | .string _, .null => isFalse (by intro h; cases h)
  | .string _, .bool _ => isFalse (by intro h; cases h)
  | .string _, .number _ => isFalse (by intro h; cases h)
  | .string _, .array _ => isFalse (by intro h; cases h)
  | .string _, .object _ => isFalse (by intro h; cases h)
  | .array _, .null => isFalse (by intro h; cases h)
  | .array _, .bool _ => isFalse (by intro h; cases h)
  | .array _, .number _ => isFalse (by intro h; cases h)
  | .array _, .string _ => isFalse (by intro h; cases h)
  | .array _, .object _ => isFalse (by intro h; cases h)
  | .object _, .null => isFalse (by intro h; cases h)
  | .object _, .bool _ => isFalse (by intro h; cases h)
  | .object _, .number _ => isFalse (by intro h; cases h)
  | .object _, .string _ => isFalse (by intro h; cases h)
  | .object _, .array _ => isFalse (by intro h; cases h)
/-- Equality of lists of `JSON` values is decidable. -/
def JSON.decEqList : (a b : List JSON) → Decidable (a = b)
  | [], [] => isTrue rfl
  | [], _ :: _ => isFalse (by intro h; cases h)
  | _ :: _, [] => isFalse (by intro h; cases h)
  | x :: xs, y :: ys =>
    match JSON.decEq x y, JSON.decEqList xs ys with
    | isTrue h1, isTrue h2 => isTrue (by rw [h1, h2])
    | isFalse h1, _ => isFalse (by intro h; cases h; exact h1 rfl)
    | _, isFalse h2 => isFalse (by intro h; cases h; exact h2 rfl)
/-- Equality of lists of named `JSON` values is decidable. -/
def JSON.decEqMembers : (a b : List (GoString × JSON)) → Decidable (a = b)
  | [], [] => isTrue rfl
  | [], _ :: _ => isFalse (by intro h; cases h)
  | _ :: _, [] => isFalse (by intro h; cases h)
  | (k, x) :: xs, (l, y) :: ys =>
    if hk : k = l then
      match JSON.decEq x y, JSON.decEqMembers xs ys with
      | isTrue h1, isTrue h2 => isTrue (by rw [hk, h1, h2])
      | isFalse h1, _ => isFalse (by intro h; cases h; exact h1 rfl)
      | _, isFalse h2 => isFalse (by intro h; cases h; exact h2 rfl)
    else isFalse (by intro h; cases h; exact hk rfl)
end

instance : DecidableEq JSON := JSON.decEq

instance : Inhabited JSON := ⟨.null⟩


/-- The nesting limit of the scanner (`maxNestingDepth`). -/
def maxNestingDepth : Nat := 10000

/-- The scanner's `isSpace`. -/
def json.isSpace (c : Char) : Bool :=
  c == ' ' || c == '\t' || c == '\r' || c == '\n'

/-- Whether `c` is a decimal digit. -/
def json.isDigit (c : Char) : Bool := '0' ≤ c && c ≤ '9'

/-- Whether `c` is a hexadecimal digit. -/
def json.isHex (c : Char) : Bool :=
  ('0' ≤ c && c ≤ '9') || ('a' ≤ c && c ≤ 'f') || ('A' ≤ c && c ≤ 'F')

/-- The first byte of the UTF-8 encoding of a code point: the byte the scanner is
looking at when it rejects a character. -/
def json.leadByte (c : Char) : Nat :=
  let n := c.toNat
  if n < 0x80 then n
  else if n < 0x800 then 0xC0 + n / 0x40
  else if n < 0x10000 then 0xE0 + n / 0x1000
  else 0xF0 + n / 0x40000

/-- A lower-case hexadecimal digit. -/
def json.hexDigit (n : Nat) : Char :=
  if n < 10 then Char.ofNat (48 + n) else Char.ofNat (87 + n)

/-- The `quoteChar` function of `scanner.go`: the offending byte, quoted for a message. -/
def json.quoteChar (c : Char) : String :=
  let b := json.leadByte c
  if b = 0x27 then "'\\''"
  else if b = 0x22 then "'\"'"
  else if b = 0x5C then "'\\\\'"
  else if b = 0x07 then "'\\a'"
  else if b = 0x08 then "'\\b'"
  else if b = 0x0C then "'\\f'"
  else if b = 0x0A then "'\\n'"
  else if b = 0x0D then "'\\r'"
  else if b = 0x09 then "'\\t'"
  else if b = 0x0B then "'\\v'"
  else if b < 0x20 ∨ b = 0x7F then
    String.mk ['\'', '\\', 'x', json.hexDigit (b / 16), json.hexDigit (b % 16), '\'']
  else String.mk ['\'', Char.ofNat b, '\'']

/-- The scanner's `error` method: the `SyntaxError` for byte `c` in the given context. -/
def json.scanError (c : Char) (context : String) : GoError :=
  .syntaxError ("invalid character " ++ json.quoteChar c ++ " " ++ context)

/-- The step functions of the scanner (`stateBeginValue`, `stateInString`, ...).  The
states spelling out `true`, `false` and `null` are `inLiteral name rest`, `rest` being
the letters still expected; `inStringEscU n` is the state after `\u` and `n` hexadecimal
digits. -/
inductive ScanStep where
  | beginValueOrEmpty
  | beginValue
  | beginStringOrEmpty
  | beginString
  | endValue
  | endTop
  | inString
  | inStringEsc
  | inStringEscU (n : Nat)
  | neg
  | s1
  | s0
  | dot
  | dot0
  | e
  | eSign
  | e0
  | inLiteral (name : String) (rest : GoString)
  deriving DecidableEq

/-- An entry of the scanner's `parseState` stack, together with the part of the
composite value read so far.  For an object, `key` is the member name that has been
read and still waits for its value. -/
inductive ParseState where
  | parseObjectKey (members : List (GoString × JSON)) (key : Option GoString)
  | parseObjectValue (members : List (GoString × JSON)) (key : Option GoString)
  | parseArrayValue (elems : List JSON)
  deriving DecidableEq

/-- The scanner: its step function, its `parseState` stack, the text of the literal
being read, the `endTop` flag and the completed top-level value. -/
structure Scanner where
  step : ScanStep
  parseState : List ParseState
  literal : GoString
  endTop : Bool
  top : Option JSON
  deriving DecidableEq

/-- The scanner after `reset`. -/
def Scanner.reset : Scanner := ⟨.beginValue, [], [], false, none⟩

/-- The value of four hexadecimal digits (`getu4`). -/
def json.hexVal (c : Char) : Nat :=
  if '0' ≤ c ∧ c ≤ '9' then c.toNat - 48
  else if 'a' ≤ c ∧ c ≤ 'f' then c.toNat - 87
  else c.toNat - 55

/-- The `getu4` function of `decode.go` on four hexadecimal digits. -/
def json.getu4 (a b c d : Char) : Nat :=
  ((json.hexVal a * 16 + json.hexVal b) * 16 + json.hexVal c) * 16 + json.hexVal d

/-- The `unquote` function of `decode.go`, with the surrogate read by the previous
`\u` escape (if any) still waiting for its partner. -/
def json.unquoteAux : Option Nat → GoString → GoString
  | p, '\\' :: 'u' :: a :: b :: c :: d :: rest =>
    let rr := json.getu4 a b c d
    let fresh : Unit → GoString := fun _ =>
      if 0xD800 ≤ rr ∧ rr < 0xE000 then json.unquoteAux (some rr) rest
      else Char.ofNat rr :: json.unquoteAux none rest
    match p with
    | some hi =>
      if hi < 0xDC00 ∧ 0xDC00 ≤ rr ∧ rr < 0xE000 then
        Char.ofNat ((hi - 0xD800) * 0x400 + (rr - 0xDC00) + 0x10000) :: json.unquoteAux none rest
      else
        Char.ofNat 0xFFFD :: fresh ()
    | none => fresh ()
  | p, '\\' :: c :: rest =>
    (match p with | some _ => [Char.ofNat 0xFFFD] | none => []) ++
    (if c = 'b' then Char.ofNat 8
     else if c = 'f' then Char.ofNat 12
     else if c = 'n' then '\n'
     else if c = 'r' then '\r'
     else if c = 't' then '\t'
     else c) :: json.unquoteAux none rest
  | p, c :: rest =>
    (match p with | some _ => [Char.ofNat 0xFFFD] | none => []) ++ c :: json.unquoteAux none rest
  | p, [] => (match p with | some _ => [Char.ofNat 0xFFFD] | none => [])

/-- The `unquote` function of `decode.go` on the text between the quotes of a string
literal the scanner has accepted: escapes are replaced by the characters they denote, a
pair of surrogate escapes by its code point, an unpaired surrogate escape by U+FFFD. -/
def json.unquote (s : GoString) : GoString := json.unquoteAux none s


/-- Hand a completed value to the place the parse state expects it: the top level, the
array being read, or the object being read (as the pending member name when none is
pending, otherwise as the value of the pending name). -/
def Scanner.deliver (s : Scanner) (v : JSON) : Scanner :=
  match s.parseState with
  | [] => { s with top := some v }
  | .parseArrayValue elems :: rest =>
    { s with parseState := .parseArrayValue (elems ++ [v]) :: rest }
  | .parseObjectKey members _ :: rest =>
    match v with
    | .string k => { s with parseState := .parseObjectKey members (some k) :: rest }
    | _ => s
  | .parseObjectValue members (some k) :: rest =>
    { s with parseState := .parseObjectValue (members ++ [(k, v)]) none :: rest }
  | .parseObjectValue _ none :: _ => s

/-- The `pushParseState` method: enter an object or an array, unless that exceeds the
nesting limit. -/
def Scanner.pushParseState (s : Scanner) (c : Char) (newParseState : ParseState) :
    Except GoError Scanner :=
  if s.parseState.length + 1 ≤ maxNestingDepth then
    .ok { s with parseState := newParseState :: s.parseState }
  else
    .error (json.scanError c "exceeded max depth")

/-- The `popParseState` method, handing the completed composite `v` to the enclosing
parse state. -/
def Scanner.popParseState (s : Scanner) (v : JSON) : Scanner :=
  match s.parseState with
  | [] => s
  | [_] => { s with parseState := [], step := .endTop, endTop := true, top := some v }
  | _ :: rest => Scanner.deliver { s with parseState := rest, step := .endValue } v

/-- The `stateEndTop` step: after the top-level value only space may follow. -/
def Scanner.stateEndTop (s : Scanner) (c : Char) : Except GoError Scanner :=
  if !json.isSpace c then .error (json.scanError c "after top-level value")
  else .ok s

/-- The `stateEndValue` step: after a value has been completed. -/
def Scanner.stateEndValue (s : Scanner) (c : Char) : Except GoError Scanner :=
  match s.parseState with
  | [] => Scanner.stateEndTop { s with step := .endTop, endTop := true } c
  | ps :: rest =>
    if json.isSpace c then .ok { s with step := .endValue }
    else
      match ps with
      | .parseObjectKey members key =>
        if c = ':' then
          .ok { s with parseState := .parseObjectValue members key :: rest, step := .beginValue }
        else .error (json.scanError c "after object key")
      | .parseObjectValue members _ =>
        if c = ',' then
          .ok { s with parseState := .parseObjectKey members none :: rest, step := .beginString }
        else if c = '}' then .ok (s.popParseState (.object members))
        else .error (json.scanError c "after object key:value pair")
      | .parseArrayValue elems =>
        if c = ',' then .ok { s with step := .beginValue }
        else if c = ']' then .ok (s.popParseState (.array elems))
        else .error (json.scanError c "after array element")

/-- The `stateBeginValue` step: at the beginning of a value. -/
def Scanner.stateBeginValue (s : Scanner) (c : Char) : Except GoError Scanner :=
  if json.isSpace c then .ok s
  else if c = '{' then
    Scanner.pushParseState { s with step := .beginStringOrEmpty } c (.parseObjectKey [] none)
  else if c = '[' then
    Scanner.pushParseState { s with step := .beginValueOrEmpty } c (.parseArrayValue [])
  else if c = '"' then .ok { s with step := .inString, literal := [] }
  else if c = '-' then .ok { s with step := .neg, literal := [c] }
  else if c = '0' then .ok { s with step := .s0, literal := [c] }
  else if c = 't' then .ok { s with step := .inLiteral "true" ['r', 'u', 'e'] }
  else if c = 'f' then .ok { s with step := .inLiteral "false" ['a', 'l', 's', 'e'] }
  else if c = 'n' then .ok { s with step := .inLiteral "null" ['u', 'l', 'l'] }
  else if '1' ≤ c ∧ c ≤ '9' then .ok { s with step := .s1, literal := [c] }
  else .error (json.scanError c "looking for beginning of value")

/-- The `stateBeginString` step: after `{"key": value,`. -/
def Scanner.stateBeginString (s : Scanner) (c : Char) : Except GoError Scanner :=
  if json.isSpace c then .ok s
  else if c = '"' then .ok { s with step := .inString, literal := [] }
  else .error (json.scanError c "looking for beginning of object key string")

/-- Complete the number literal being read and hand it over, then take the
`stateEndValue` step on `c`. -/
def Scanner.endNumber (s : Scanner) (c : Char) : Except GoError Scanner :=
  Scanner.stateEndValue (s.deliver (.number s.literal)) c

/-- The `state0` step: after `0` (or after the digits of the integer part). -/
def Scanner.state0 (s : Scanner) (c : Char) : Except GoError Scanner :=
  if c = '.' then .ok { s with step := .dot, literal := s.literal ++ [c] }
  else if c = 'e' ∨ c = 'E' then .ok { s with step := .e, literal := s.literal ++ [c] }
  else s.endNumber c

/-- The `stateESign` step: after the exponent marker and its optional sign. -/
def Scanner.stateESign (s : Scanner) (c : Char) : Except GoError Scanner :=
  if json.isDigit c then .ok { s with step := .e0, literal := s.literal ++ [c] }
  else .error (json.scanError c "in exponent of numeric literal")

/-- The value of the literal `true`, `false` or `null`. -/
def json.literalValue (name : String) : JSON :=
  if name = "true" then .bool true
  else if name = "false" then .bool false
  else .null

/-- One call `s.step(s, c)` of the scanner. -/
def Scanner.next (s : Scanner) (c : Char) : Except GoError Scanner :=
  match s.step with
  | .beginValueOrEmpty =>
    if json.isSpace c then .ok s
    else if c = ']' then s.stateEndValue c
    else s.stateBeginValue c
  | .beginValue => s.stateBeginValue c
  | .beginStringOrEmpty =>
    if json.isSpace c then .ok s
    else if c = '}' then
      match s.parseState with
      | .parseObjectKey members key :: rest =>
        Scanner.stateEndValue { s with parseState := .parseObjectValue members key :: rest } c
      | _ => s.stateEndValue c
    else s.stateBeginString c
  | .beginString => s.stateBeginString c
  | .endValue => s.stateEndValue c
  | .endTop => s.stateEndTop c
  | .inString =>
    if c = '"' then
      .ok (Scanner.deliver { s with step := .endValue } (.string (json.unquote s.literal)))
    else if c = '\\' then .ok { s with step := .inStringEsc, literal := s.literal ++ [c] }
    else if c.toNat < 0x20 then .error (json.scanError c "in string literal")
    else .ok { s with literal := s.literal ++ [c] }
  | .inStringEsc =>
    if c = 'b' ∨ c = 'f' ∨ c = 'n' ∨ c = 'r' ∨ c = 't' ∨ c = '\\' ∨ c = '/' ∨ c = '"' then
      .ok { s with step := .inString, literal := s.literal ++ [c] }
    else if c = 'u' then .ok { s with step := .inStringEscU 0, literal := s.literal ++ [c] }
    else .error (json.scanError c "in string escape code")
  | .inStringEscU n =>
    if json.isHex c then
      .ok { s with step := (if n < 3 then .inStringEscU (n + 1) else .inString),
                   literal := s.literal ++ [c] }
    else .error (json.scanError c "in \\u hexadecimal character escape")
  | .neg =>
    if c = '0' then .ok { s with step := .s0, literal := s.literal ++ [c] }
    else if '1' ≤ c ∧ c ≤ '9' then .ok { s with step := .s1, literal := s.literal ++ [c] }
    else .error (json.scanError c "in numeric literal")
  | .s1 =>
    if json.isDigit c then .ok { s with literal := s.literal ++ [c] }
    else s.state0 c
  | .s0 => s.state0 c
  | .dot =>
    if json.isDigit c then .ok { s with step := .dot0, literal := s.literal ++ [c] }
    else .error (json.scanError c "after decimal point in numeric literal")
  | .dot0 =>
    if json.isDigit c then .ok { s with literal := s.literal ++ [c] }
    else if c = 'e' ∨ c = 'E' then .ok { s with step := .e, literal := s.literal ++ [c] }
    else s.endNumber c
  | .e =>
    if c = '+' ∨ c = '-' then .ok { s with step := .eSign, literal := s.literal ++ [c] }
    else s.stateESign c
  | .eSign => s.stateESign c
  | .e0 =>
    if json.isDigit c then .ok { s with literal := s.literal ++ [c] }
    else s.endNumber c
  | .inLiteral name rest =>
    match rest with
    | [] => s.stateEndValue c
    | x :: more =>
      if c = x then
        match more with
        | [] => .ok (Scanner.deliver { s with step := .endValue } (json.literalValue name))
        | _ => .ok { s with step := .inLiteral name more }
      else
        .error (json.scanError c
          ("in literal " ++ name ++ " (expecting " ++ json.quoteChar x ++ ")"))

/-- Feed the scanner a whole text, stopping at the first error. -/
def Scanner.run : Scanner → GoString → Except GoError Scanner
  | s, [] => .ok s
  | s, c :: cs =>
    match s.next c with
    | .error err => .error err
    | .ok t => Scanner.run t cs

/-- The `eof` method: the end of the input has been reached.  A value still being read
is completed by one more step on a space. -/
def Scanner.eof (s : Scanner) : Except GoError Scanner :=
  if s.endTop then .ok s
  else
    match s.next ' ' with
    | .error err => .error err
    | .ok t =>
      if t.endTop then .ok t
      else .error (.syntaxError "unexpected end of JSON input")

/-- The `checkValid` function, returning the value it has delimited: a JSON text is
valid exactly when this does not fail. -/
def json.checkValid (data : GoString) : Except GoError JSON :=
  match Scanner.run Scanner.reset data with
  | .error err => .error err
  | .ok s =>
    match s.eof with
    | .error err => .error err
    | .ok t =>
      match t.top with
      | some v => .ok v
      | none => .error (.syntaxError "unexpected end of JSON input")

/-! ## `strconv.ParseFloat` and the decoder (`decode.go`) -/

/-- A finite `float64`, as the number `mant * 2 ^ exp` with `mant` odd, zero being
`⟨0, 0⟩`.  The two zeros are identified, as they are by `==`. -/
structure Float64 where
  mant : Int
  exp : Int
  deriving DecidableEq

/-- Strip the factors two of a significand. -/
def Float64.normalize : Nat → Nat → Int → Nat × Int
  | 0, m, e => (m, e)
  | fuel + 1, m, e =>
    if m ≠ 0 ∧ m % 2 = 0 then Float64.normalize fuel (m / 2) (e + 1) else (m, e)

/-- The number of binary digits of `n`, counted in at most `fuel` halvings. -/
def Float64.bitLen : Nat → Nat → Nat
  | 0, _ => 0
  | fuel + 1, n => if n = 0 then 0 else Float64.bitLen fuel (n / 2) + 1

/-- The `float64` nearest to `p / q` (ties to even), or `none` when that is out of range:
the rounding `strconv.ParseFloat(s, 64)` performs, which reports out-of-range values
with an error.  `fl` is the binary exponent of `p / q`, `e2` the exponent of the unit in
the last place (at least that of the subnormal numbers), `m` the rounded significand;
the value is out of range when `m * 2 ^ e2` reaches `2 ^ 1024`. -/
def Float64.round (negative : Bool) (p q : Nat) : Option Float64 :=
  if p = 0 ∨ q = 0 then some ⟨0, 0⟩
  else
    let k : Int := (Float64.bitLen p p : Int) - (Float64.bitLen q q : Int)
    let fl : Int := if q * 2 ^ k.toNat ≤ p * 2 ^ (-k).toNat then k else k - 1
    let e2 : Int := max (fl - 52) (-1074)
    let num := p * 2 ^ (-e2).toNat
    let den := q * 2 ^ e2.toNat
    let quo := num / den
    let r := num % den
    let m := if den < 2 * r ∨ (2 * r = den ∧ quo % 2 = 1) then quo + 1 else quo
    if 971 < e2 ∨ (e2 = 971 ∧ 2 ^ 53 ≤ m) then none
    else if m = 0 then some ⟨0, 0⟩
    else
      let (m1, e1) := Float64.normalize 64 m e2
      some ⟨if negative then -(m1 : Int) else (m1 : Int), e1⟩

/-- Read a run of decimal digits: the number read after `acc`, how many digits were
read, and the rest of the text. -/
def json.readDigits : GoString → Nat → Nat → Nat × Nat × GoString
  | [], acc, n => (acc, n, [])
  | c :: cs, acc, n =>
    if json.isDigit c then json.readDigits cs (acc * 10 + (c.toNat - 48)) (n + 1)
    else (acc, n, c :: cs)

/-- The value of a number literal the scanner has accepted, as sign, decimal
significand and power of ten. -/
def json.readNumber (lit : GoString) : Bool × Nat × Int :=
  let (negative, r0) := match lit with
    | '-' :: r => (true, r)
    | r => (false, r)
  let (i, _, r1) := json.readDigits r0 0 0
  let (m, nfrac, r2) := match r1 with
    | '.' :: r => json.readDigits r i 0
    | r => (i, 0, r)
  let e : Int := match r2 with
    | _ :: '-' :: r => -((json.readDigits r 0 0).1 : Int)
    | _ :: '+' :: r => ((json.readDigits r 0 0).1 : Int)
    | _ :: r => ((json.readDigits r 0 0).1 : Int)
    | [] => 0
  (negative, m, e - nfrac)

/-- The `strconv.ParseFloat(s, 64)` function on a JSON number literal; `none` is the
range error. -/
def strconv.ParseFloat (lit : GoString) : Option Float64 :=
  let (negative, m, e) := json.readNumber lit
  if 0 ≤ e then Float64.round negative (m * 10 ^ e.toNat) 1
  else Float64.round negative m (10 ^ (-e).toNat)

/-- A value of type `interface{}` as `encoding/json` produces it: `nil`, `bool`,
`float64`, `string`, `[]interface{}` or `map[string]interface{}`.  A map is listed by
its entries, keys distinct, in the order the keys were first inserted (Go maps have no
order of their own). -/
inductive GoValue where
  | nil
  | bool (b : Bool)
  | float64 (f : Float64)
  | string (s : GoString)
  | slice (elems : List GoValue)
  | map (entries : List (GoString × GoValue))

mutual
/-- Equality of `GoValue` values is decidable. -/
def GoValue.decEq : (a b : GoValue) → Decidable (a = b)
  | .nil, .nil => isTrue rfl
  | .bool x, .bool y =>
    if h : x = y then isTrue (by rw [h])
    else isFalse (by intro h1; cases h1; exact h rfl)
  | .float64 x, .float64 y =>
    if h : x = y then isTrue (by rw [h])
    else isFalse (by intro h1; cases h1; exact h rfl)
  | .string x, .string y =>
    if h : x = y then isTrue (by rw [h])
    else isFalse (by intro h1; cases h1; exact h rfl)
  | .slice x, .slice y =>
    match GoValue.decEqList x y with
    | isTrue h => isTrue (by rw [h])
    | isFalse h => isFalse (by intro h1; cases h1; exact h rfl)
  | .map x, .map y =>
    match GoValue.decEqMembers x y with
    | isTrue h => isTrue (by rw [h])
    | isFalse h => isFalse (by intro h1; cases h1; exact h rfl)
  | .nil, .bool _ => isFalse (by intro h; cases h)
  | .nil, .float64 _ => isFalse (by intro h; cases h)
  | .nil, .string _ => isFalse (by intro h; cases h)
  | .nil, .slice _ => isFalse (by intro h; cases h)
  | .nil, .map _ => isFalse (by intro h; cases h)
  | .bool _, .nil => isFalse (by intro h; cases h)
  | .bool _, .float64 _ => isFalse (by intro h; cases h)
  | .bool _, .string _ => isFalse (by intro h; cases h)
  | .bool _, .slice _ => isFalse (by intro h; cases h)
  | .bool _, .map _ => isFalse (by intro h; cases h)
  | .float64 _, .nil => isFalse (by intro h; cases h)
  | .float64 _, .bool _ => isFalse (by intro h; cases h)
  | .float64 _, .string _ => isFalse (by intro h; cases h)
  | .float64 _, .slice _ => isFalse (by intro h; cases h)
  | .float64 _, .map _ => isFalse (by intro h; cases h)
  | .string _, .nil => isFalse (by intro h; cases h)
  | .string _, .bool _ => isFalse (by intro h; cases h)
  | .string _, .float64 _ => isFalse (by intro h; cases h)
  | .string _, .slice _ => isFalse (by intro h; cases h)
  | .string _, .map _ => isFalse (by intro h; cases h)
  | .slice _, .nil => isFalse (by intro h; cases h)
  | .slice _, .bool _ => isFalse (by intro h; cases h)
  | .slice _, .float64 _ => isFalse (by intro h; cases h)
  | .slice _, .string _ => isFalse (by intro h; cases h)
  | .slice _, .map _ => isFalse (by intro h; cases h)
  | .map _, .nil => isFalse (by intro h; cases h)
  | .map _, .bool _ => isFalse (by intro h; cases h)
  | .map _, .float64 _ => isFalse (by intro h; cases h)
  | .map _, .string _ => isFalse (by intro h; cases h)
  | .map _, .slice _ => isFalse (by intro h; cases h)
/-- Equality of lists of `GoValue` values is decidable. -/
def GoValue.decEqList : (a b : List GoValue) → Decidable (a = b)
  | [], [] => isTrue rfl
  | [], _ :: _ => isFalse (by intro h; cases h)
  | _ :: _, [] => isFalse (by intro h; cases h)
  | x :: xs, y :: ys =>
    match GoValue.decEq x y, GoValue.decEqList xs ys with
    | isTrue h1, isTrue h2 => isTrue (by rw [h1, h2])
    | isFalse h1, _ => isFalse (by intro h; cases h; exact h1 rfl)
    | _, isFalse h2 => isFalse (by intro h; cases h; exact h2 rfl)
/-- Equality of lists of named `GoValue` values is decidable. -/
def GoValue.decEqMembers : (a b : List (GoString × GoValue)) → Decidable (a = b)
  | [], [] => isTrue rfl
  | [], _ :: _ => isFalse (by intro h; cases h)
  | _ :: _, [] => isFalse (by intro h; cases h)
  | (k, x) :: xs, (l, y) :: ys =>
    if hk : k = l then
      match GoValue.decEq x y, GoValue.decEqMembers xs ys with
      | isTrue h1, isTrue h2 => isTrue (by rw [hk, h1, h2])
      | isFalse h1, _ => isFalse (by intro h; cases h; exact h1 rfl)
      | _, isFalse h2 => isFalse (by intro h; cases h; exact h2 rfl)
    else isFalse (by intro h; cases h; exact hk rfl)
end

instance : DecidableEq GoValue := GoValue.decEq

instance : Inhabited GoValue := ⟨.nil⟩


/-- A non-nil `map[string]interface{}`. -/
abbrev GoMap := List (GoString × GoValue)

/-- The map assignment `m[k] = v`. -/
def GoMap.set : GoMap → GoString → GoValue → GoMap
  | [], k, v => [(k, v)]
  | (k1, v1) :: rest, k, v =>
    if k1 = k then (k1, v) :: rest else (k1, v1) :: GoMap.set rest k v

/-- The map index expression `m[k]` with its `ok` result: `none` when `k` is not a key. -/
def GoMap.get : GoMap → GoString → Option GoValue
  | [], _ => none
  | (k1, v1) :: rest, k => if k1 = k then some v1 else GoMap.get rest k

/-- The keys of a map. -/
def GoMap.keys (m : GoMap) : List GoString := m.map Prod.fst

/-- The `convertNumber` method: the literal as a `float64`, or an `UnmarshalTypeError`
when `strconv.ParseFloat` fails. -/
def json.convertNumber (lit : GoString) : Except GoError Float64 :=
  match strconv.ParseFloat lit with
  | some f => .ok f
  | none => .error (.unmarshalTypeError ("number " ++ String.mk lit) "float64")

/-- The `saveError` method: only the first error is kept. -/
def json.saveError (saved : Option GoError) (err : Option GoError) : Option GoError :=
  match saved with
  | some e => some e
  | none => err

mutual
/-- The `valueInterface` method: decode a value into an `interface{}`, with the error
saved on the way (decoding goes on after a number that does not fit, leaving `nil`). -/
def json.valueInterface : JSON → GoValue × Option GoError
  | .null => (.nil, none)
  | .bool b => (.bool b, none)
  | .string s => (.string s, none)
  | .number lit =>
    match json.convertNumber lit with
    | .ok f => (.float64 f, none)
    | .error err => (.nil, some err)
  | .array elems =>
    let r := json.arrayInterface elems
    (.slice r.1, r.2)
  | .object members =>
    let r := json.objectInterface [] members
    (.map r.1, r.2)
/-- The `arrayInterface` method. -/
def json.arrayInterface : List JSON → List GoValue × Option GoError
  | [] => ([], none)
  | x :: xs =>
    let r := json.valueInterface x
    let rs := json.arrayInterface xs
    (r.1 :: rs.1, json.saveError r.2 rs.2)
/-- The `objectInterface` method: the members are assigned to the map in document
order, so a repeated name keeps its last value. -/
def json.objectInterface : GoMap → List (GoString × JSON) → GoMap × Option GoError
  | m, [] => (m, none)
  | m, (k, x) :: rest =>
    let r := json.valueInterface x
    let rs := json.objectInterface (m.set k r.1) rest
    (rs.1, json.saveError r.2 rs.2)
end

/-- The name `reflect` gives the type `map[string]interface{}`. -/
def mapTypeName : String := "map[string]interface {}"

/-- The `json.Unmarshal(data, &m)` function for `m` a nil `map[string]interface{}`: the
value of `m` afterwards (`none` is the nil map) and the error returned.  The text is
first checked by the scanner; an object fills a fresh map, `null` leaves the map nil
without an error, any other value is an `UnmarshalTypeError`. -/
def json.Unmarshal (data : GoString) : Option GoMap × Option GoError :=
  match json.checkValid data with
  | .error err => (none, some err)
  | .ok (.object members) =>
    let r := json.objectInterface [] members
    (some r.1, r.2)
  | .ok .null => (none, none)
  | .ok (.array _) => (none, some (.unmarshalTypeError "array" mapTypeName))
  | .ok (.string _) => (none, some (.unmarshalTypeError "string" mapTypeName))
  | .ok (.number _) => (none, some (.unmarshalTypeError "number" mapTypeName))
  | .ok (.bool _) => (none, some (.unmarshalTypeError "bool" mapTypeName))

mutual
/-- Whether every number literal of a value is within the range of `float64`. -/
def JSON.numbersFit : JSON → Bool
  | .null => true
  | .bool _ => true
  | .string _ => true
  | .number lit => (strconv.ParseFloat lit).isSome
  | .array elems => JSON.numbersFitList elems
  | .object members => JSON.numbersFitMembers members
/-- Whether every number literal of the values of a list is within the range of
`float64`. -/
def JSON.numbersFitList : List JSON → Bool
  | [] => true
  | x :: xs => JSON.numbersFit x && JSON.numbersFitList xs
/-- Whether every number literal of the members of an object is within the range of
`float64`. -/
def JSON.numbersFitMembers : List (GoString × JSON) → Bool
  | [] => true
  | (_, x) :: rest => JSON.numbersFit x && JSON.numbersFitMembers rest
end

/-! ## Standard input -/

/-- The `fs.ModeCharDevice` bit of a file mode (`1 << 21`). -/
def ModeCharDevice : Nat := 1 <<< 21

/-- What the process can observe of `os.Stdin`: the result of `os.Stdin.Stat()` (the file
mode bits of the returned `FileInfo`, or an error) and the result of
`io.ReadAll(os.Stdin)` (the data, taken to be valid UTF-8, or an error). -/
structure Stdin where
  Stat : Except GoError Nat
  ReadAll : Except GoError GoString

/-! ## `cmd/graphql.go` -/

/-- The `readGraphQLQuery` function (`cmd/graphql.go`, lines 61-84). -/
def readGraphQLQuery (args : List GoString) (stdin : Stdin) : Except GoError GoString :=
  if args.length > 0 then
    let query := strings.TrimSpace (strings.Join args " ".toList)
    if query = [] then
      .error (.errorf "query is required")
    else
      .ok query
  else
    match stdin.Stat with
    | .ok mode =>
      if mode &&& ModeCharDevice = 0 then
        match stdin.ReadAll with
        | .error err => .error (.wrap "failed to read query from stdin: " err)
        | .ok data =>
          let query := strings.TrimSpace data
          if query = [] then
            .error (.errorf "query from stdin is empty")
          else
            .ok query
      else
        .error (.errorf "query is required (argument or stdin)")
    | .error _ => .error (.errorf "query is required (argument or stdin)")

/-- A piped standard input holding `s`. -/
def pipedStdin (s : GoString) : Stdin := ⟨.ok 0, .ok s⟩

/-- An interactive terminal as standard input: a character device. -/
def terminalStdin : Stdin := ⟨.ok ModeCharDevice, .ok []⟩




/-- The `readGraphQLVariables` function (`cmd/graphql.go`, lines 86-99), on the value of
the `--vars` flag, for an arbitrary decoder in the place of `json.Unmarshal`. -/
def readGraphQLVariablesWith (unmarshal : GoString → Option GoMap × Option GoError)
    (varsStr : GoString) : Except GoError (Option GoMap) :=
  if varsStr = [] then
    .ok none
  else
    match unmarshal varsStr with
    | (_, some err) => .error (.wrap "failed to parse variables JSON: " err)
    | (vars, none) => .ok vars

/-- The `readGraphQLVariables` function (`cmd/graphql.go`, lines 86-99), on the value of
the `--vars` flag. -/
def readGraphQLVariables (varsStr : GoString) : Except GoError (Option GoMap) :=
  readGraphQLVariablesWith json.Unmarshal varsStr

/-! ## The response envelope and `ExecuteRaw` (`pkg/api`)

`pkg/api/client.go` is not among the sources at hand; only its tests are.  The types and
`ExecuteRaw` below follow sections 3 and 4.2 of the specification. -/

/-- Modelled from the spec: a source location of a `GraphQLError` (`pkg/api/client.go`
is missing), `{line:int, column:int}`. -/
structure GraphQLErrorLocation where
  Line : Int
  Column : Int
  deriving DecidableEq

/-- Modelled from the spec: a segment of the `path` of a `GraphQLError`
(`pkg/api/client.go` is missing), a string or an integer. -/
inductive PathSegment where
  | name (s : GoString)
  | index (i : Int)
  deriving DecidableEq

/-- Modelled from the spec: the `GraphQLError` record (`pkg/api/client.go` is missing):
`{ message, locations, path, extensions }`, every field but `message` optional. -/
structure GraphQLError where
  Message : GoString
  Locations : List GraphQLErrorLocation
  Path : List PathSegment
  Extensions : Option GoMap
  deriving DecidableEq

/-- Modelled from the spec: the response envelope (`pkg/api/client.go` is missing):
`{ data: raw-JSON-or-null, errors: ordered-sequence<GraphQLError> | absent }`.  `Data`
is the raw JSON value of the `data` member, `none` when it is null; `Errors` is
`none` when the member is absent. -/
structure GraphQLResponse where
  Data : Option JSON
  Errors : Option (List GraphQLError)
  deriving DecidableEq

/-- The member of an object with the given name (the last one, should the name be
repeated). -/
def JSON.member (name : GoString) : List (GoString × JSON) → Option JSON
  | [] => none
  | (k, v) :: rest =>
    match JSON.member name rest with
    | some w => some w
    | none => if k = name then some v else none

/-- The integer a number literal denotes, when it is written as an integer. -/
def json.readInt (lit : GoString) : Option Int :=
  match lit with
  | '-' :: r =>
    let d := json.readDigits r 0 0
    if d.2.2 = [] ∧ 0 < d.2.1 then some (-(d.1 : Int)) else none
  | r =>
    let d := json.readDigits r 0 0
    if d.2.2 = [] ∧ 0 < d.2.1 then some (d.1 : Int) else none

/-- Why a response body is not a response envelope: it is not valid JSON (with the
scanner's diagnostic), or the named part does not have the shape of the envelope. -/
inductive DecodeDiagnostic where
  | invalidJSON (err : GoError)
  | shapeMismatch (part : String)
  deriving DecidableEq

/-- Modelled from the spec: decoding of an integer member (`pkg/api/client.go` is
missing). -/
def decodeInt (part : String) : Option JSON → Except DecodeDiagnostic Int
  | some (.number lit) =>
    match json.readInt lit with
    | some i => .ok i
    | none => .error (.shapeMismatch part)
  | _ => .error (.shapeMismatch part)

/-- Modelled from the spec: decoding of the `locations` of an error
(`pkg/api/client.go` is missing): a list of `{line:int, column:int}`. -/
def decodeLocations : List JSON → Except DecodeDiagnostic (List GraphQLErrorLocation)
  | [] => .ok []
  | .object members :: rest =>
    match decodeInt "locations.line" (JSON.member "line".toList members),
          decodeInt "locations.column" (JSON.member "column".toList members),
          decodeLocations rest with
    | .ok l, .ok c, .ok ls => .ok (⟨l, c⟩ :: ls)
    | .error d, _, _ => .error d
    | _, .error d, _ => .error d
    | _, _, .error d => .error d
  | _ :: _ => .error (.shapeMismatch "locations")

/-- Modelled from the spec: decoding of the `path` of an error (`pkg/api/client.go` is
missing): a list of strings and integers. -/
def decodePath : List JSON → Except DecodeDiagnostic (List PathSegment)
  | [] => .ok []
  | .string s :: rest =>
    match decodePath rest with
    | .ok ps => .ok (.name s :: ps)
    | .error d => .error d
  | .number lit :: rest =>
    match json.readInt lit, decodePath rest with
    | some i, .ok ps => .ok (.index i :: ps)
    | none, _ => .error (.shapeMismatch "path")
    | _, .error d => .error d
  | _ :: _ => .error (.shapeMismatch "path")

/-- Modelled from the spec: decoding of one entry of `errors` (`pkg/api/client.go` is
missing): an object with a string `message` and the optional `locations`, `path` and
`extensions`. -/
def decodeGraphQLError : JSON → Except DecodeDiagnostic GraphQLError
  | .object members =>
    match JSON.member "message".toList members with
    | some (.string msg) =>
      let locations : Except DecodeDiagnostic (List GraphQLErrorLocation) :=
        match JSON.member "locations".toList members with
        | none => .ok []
        | some (.array ls) => decodeLocations ls
        | some _ => .error (.shapeMismatch "locations")
      let path : Except DecodeDiagnostic (List PathSegment) :=
        match JSON.member "path".toList members with
        | none => .ok []
        | some (.array ps) => decodePath ps
        | some _ => .error (.shapeMismatch "path")
      let extensions : Except DecodeDiagnostic (Option GoMap) :=
        match JSON.member "extensions".toList members with
        | none => .ok none
        | some (.object ms) =>
          match json.objectInterface [] ms with
          | (m, none) => .ok (some m)
          | (_, some _) => .error (.shapeMismatch "extensions")
        | some _ => .error (.shapeMismatch "extensions")
      match locations, path, extensions with
      | .ok ls, .ok ps, .ok ext => .ok ⟨msg, ls, ps, ext⟩
      | .error d, _, _ => .error d
      | _, .error d, _ => .error d
      | _, _, .error d => .error d
    | _ => .error (.shapeMismatch "message")
  | _ => .error (.shapeMismatch "errors")

/-- Modelled from the spec: decoding of the entries of `errors` (`pkg/api/client.go` is
missing). -/
def decodeGraphQLErrors : List JSON → Except DecodeDiagnostic (List GraphQLError)
  | [] => .ok []
  | x :: rest =>
    match decodeGraphQLError x, decodeGraphQLErrors rest with
    | .ok e, .ok es => .ok (e :: es)
    | .error d, _ => .error d
    | _, .error d => .error d

/-- Modelled from the spec: decoding of a response body as a response envelope, step 6
of section 4.2 (`pkg/api/client.go` is missing): the body must be valid JSON and an
object; `data` is kept as raw JSON; `errors`, when present, must be a list of error
objects. -/
def decodeEnvelope (body : GoString) : Except DecodeDiagnostic GraphQLResponse :=
  match json.checkValid body with
  | .error err => .error (.invalidJSON err)
  | .ok (.object members) =>
    let data : Option JSON :=
      match JSON.member "data".toList members with
      | some .null => none
      | d => d
    match JSON.member "errors".toList members with
    | none => .ok ⟨data, none⟩
    | some (.array es) =>
      match decodeGraphQLErrors es with
      | .ok errs => .ok ⟨data, some errs⟩
      | .error d => .error d
    | some _ => .error (.shapeMismatch "errors")
  | .ok _ => .error (.shapeMismatch "envelope")

/-- Modelled from the spec: the request envelope (`pkg/api/client.go` is missing):
`{ query, variables | absent }`. -/
structure GraphQLRequest where
  Query : GoString
  Variables : Option GoMap
  deriving DecidableEq

/-- An HTTP request as the client sends it: a POST of the request envelope to the
endpoint, with the `Content-Type` and `Authorization` headers. -/
structure HTTPRequest where
  Method : String
  URL : String
  ContentType : String
  Authorization : String
  Body : GraphQLRequest
  deriving DecidableEq

/-- An HTTP response as the client receives it: the status code and the full body. -/
structure HTTPResponse where
  StatusCode : Nat
  Body : GoString
  deriving DecidableEq

/-- Modelled from the spec: the client configuration (`pkg/api/client.go` is missing):
the endpoint, the value of the `Authorization` header and the transport, which either
fails or yields a response. -/
structure Client where
  baseURL : String
  authHeader : String
  httpClient : HTTPRequest → Except GoError HTTPResponse

/-- Modelled from the spec: the failures of `execute` (`pkg/api/client.go` is missing):
`TransportError` wrapping the cause, `HTTPStatusError` with the status and the body it
came with, `DecodeError` with the diagnostic and the raw body. -/
inductive ExecuteError where
  | TransportError (cause : GoError)
  | HTTPStatusError (status : Nat) (body : GoString)
  | DecodeError (diagnostic : DecodeDiagnostic) (rawBody : GoString)
  deriving DecidableEq

/-- Modelled from the spec: the `ExecuteRaw` method of the client (`pkg/api/client.go`
is missing), the `execute` of section 4.2: build the request envelope, POST it, fail
with `TransportError` when the transport fails, with `HTTPStatusError` when the status
is not in 200..299 (before the body is looked at), with `DecodeError` when the body is
not a response envelope, and otherwise return the decoded envelope unmodified. -/
def Client.ExecuteRaw (c : Client) (query : GoString) (vars : Option GoMap) :
    Except ExecuteError GraphQLResponse :=
  let req : HTTPRequest :=
    ⟨"POST", c.baseURL, "application/json", c.authHeader, ⟨query, vars⟩⟩
  match c.httpClient req with
  | .error cause => .error (.TransportError cause)
  | .ok resp =>
    if resp.StatusCode < 200 ∨ 299 < resp.StatusCode then
      .error (.HTTPStatusError resp.StatusCode resp.Body)
    else
      match decodeEnvelope resp.Body with
      | .error d => .error (.DecodeError d resp.Body)
      | .ok envelope => .ok envelope

/-! ## The `graphql` command -/

/-- What the process running the command does that can be seen from outside or that
reaches a collaborator: the calls of the core (`readGraphQLQuery`, the only reader of
standard input, `readGraphQLVariables`, `ExecuteRaw`), the calls of `output.Error` and
`output.JSON`, and `os.Exit`. -/
inductive Event where
  | readGraphQLQuery
  | readGraphQLVariables
  | ExecuteRaw (authHeader : String) (query : GoString) (vars : Option GoMap)
  | outputError (msg : String) (plaintext : Bool) (jsonOut : Bool)
  | outputJSON (resp : GraphQLResponse)
  | osExit (code : Nat)
  deriving DecidableEq

/-- What the command reads from its surroundings: the `plaintext` and `json` settings,
the result of `auth.GetAuthHeader()`, standard input, the `--vars` flag, and the result
of `api.NewClient(authHeader).ExecuteRaw(ctx, query, variables)`. -/
structure Env where
  plaintext : Bool
  jsonOut : Bool
  GetAuthHeader : Except GoError String
  stdin : Stdin
  varsFlag : GoString
  ExecuteRaw : String → GoString → Option GoMap → Except GoError GraphQLResponse

/-- The `Run` function of `graphqlCmd` (`cmd/graphql.go`, lines 28-58): the events of
one run, in order.  `os.Exit` ends the run. -/
def graphqlCmd.Run (env : Env) (args : List GoString) : List Event :=
  match env.GetAuthHeader with
  | .error _ =>
    [.outputError "Not authenticated. Run 'linctl auth' first." env.plaintext env.jsonOut,
     .osExit 1]
  | .ok authHeader =>
    match readGraphQLQuery args env.stdin with
    | .error err =>
      [.readGraphQLQuery, .outputError err.Error env.plaintext env.jsonOut, .osExit 1]
    | .ok query =>
      match readGraphQLVariables env.varsFlag with
      | .error err =>
        [.readGraphQLQuery, .readGraphQLVariables,
         .outputError err.Error env.plaintext env.jsonOut, .osExit 1]
      | .ok vars =>
        match env.ExecuteRaw authHeader query vars with
        | .error err =>
          [.readGraphQLQuery, .readGraphQLVariables, .ExecuteRaw authHeader query vars,
           .outputError ("GraphQL request failed: " ++ err.Error) env.plaintext env.jsonOut,
           .osExit 1]
        | .ok resp =>
          [.readGraphQLQuery, .readGraphQLVariables, .ExecuteRaw authHeader query vars,
           .outputJSON resp]

/-- The body of the test `TestExecuteRaw_WithGraphQLErrors` (`pkg/api/client_test.go`). -/
def testBodyWithGraphQLErrors : GoString :=
  ("\x7b\n\t\t\t\"data\": null,\n\t\t\t\"errors\": [\n\t\t\t\t\x7b\n"
    ++ "\t\t\t\t\t\"message\": \"Field 'invalid' doesn't exist on type 'Viewer'\",\n"
    ++ "\t\t\t\t\t\"locations\": [\x7b\"line\": 1, \"column\": 10\x7d],\n"
    ++ "\t\t\t\t\t\"path\": [\"viewer\", \"invalid\"],\n"
    ++ "\t\t\t\t\t\"extensions\": \x7b\"code\": \"FIELD_NOT_FOUND\"\x7d\n"
    ++ "\t\t\t\t\x7d\n\t\t\t]\n\t\t\x7d").toList

/-- A client whose transport answers every request with the given status and body. -/
def answeringClient (status : Nat) (body : GoString) : Client :=
  ⟨"https://api.linear.app/graphql", "Bearer test-token", fun _ => .ok ⟨status, body⟩⟩

/-- A run of the command without a credential, with a query argument, a `--vars` value
and a piped standard input at hand. -/
def unauthenticatedEnv : Env :=
  ⟨false, true, .error (.errorf "not authenticated"), pipedStdin "query".toList,
    "\x7b\"a\":1\x7d".toList, fun _ _ _ => .ok ⟨none, none⟩⟩

/-- A character that stands for itself inside a JSON string literal: not the quote, not
the backslash, not a control character. -/
def json.isPlain (c : Char) : Bool := c != '"' && c != '\\' && 0x20 ≤ c.toNat

/-- The response body `\x7b"data":null,"errors":[\x7b"message":"m"\x7d]\x7d` for a message
`m` written as it is. -/
def errorBody (m : GoString) : GoString :=
  "\x7b\"data\":null,\"errors\":[\x7b\"message\":\"".toList ++ m ++ "\"\x7d]\x7d".toList

/-! ## Properties of `strings.TrimSpace` -/

theorem strings.TrimSpace_eq (s : GoString) :
    strings.TrimSpace s = (s.dropWhile unicode.IsSpace).rdropWhile unicode.IsSpace := rfl

theorem rdropWhile_append_rtakeWhile_self (p : Char → Bool) (l : List Char) :
    l.rdropWhile p ++ l.rtakeWhile p = l := by
  unfold List.rdropWhile List.rtakeWhile
  rw [← List.reverse_append, List.takeWhile_append_dropWhile, List.reverse_reverse]

/-- The trimmed text is the text without a prefix and a suffix made of white space. -/
theorem strings.TrimSpace_decomp (s : GoString) :
    ∃ pre post : GoString, s = pre ++ strings.TrimSpace s ++ post
      ∧ (∀ c ∈ pre, unicode.IsSpace c = true) ∧ (∀ c ∈ post, unicode.IsSpace c = true) := by
  refine ⟨s.takeWhile unicode.IsSpace,
    (s.dropWhile unicode.IsSpace).rtakeWhile unicode.IsSpace, ?_, ?_, ?_⟩
  · rw [strings.TrimSpace_eq, List.append_assoc, rdropWhile_append_rtakeWhile_self,
      List.takeWhile_append_dropWhile]
  · intro c hc
    exact List.mem_takeWhile_imp hc
  · intro c hc
    exact List.mem_rtakeWhile_imp hc

/-- The trimmed text does not begin with white space. -/
theorem strings.TrimSpace_head (s : GoString) (h : strings.TrimSpace s ≠ []) :
    unicode.IsSpace ((strings.TrimSpace s).head h) = false := by
  have hpre : strings.TrimSpace s <+: s.dropWhile unicode.IsSpace := by
    rw [strings.TrimSpace_eq]
    exact List.rdropWhile_prefix _ _
  obtain ⟨r, hr⟩ := hpre
  have hd : s.dropWhile unicode.IsSpace ≠ [] := by
    intro h0
    rw [h0] at hr
    exact h (List.append_eq_nil.mp hr).1
  have h1 := List.head_dropWhile_not unicode.IsSpace s hd
  have h2 : (s.dropWhile unicode.IsSpace).head hd = (strings.TrimSpace s).head h := by
    have : (strings.TrimSpace s ++ r).head (by simp [h]) = (strings.TrimSpace s).head h :=
      List.head_append_of_ne_nil h
    rw [← this]
    congr 1
    exact hr.symm
  rw [← h2]
  exact h1

/-- The trimmed text does not end with white space. -/
theorem strings.TrimSpace_getLast (s : GoString) (h : strings.TrimSpace s ≠ []) :
    unicode.IsSpace ((strings.TrimSpace s).getLast h) = false := by
  have := List.rdropWhile_last_not unicode.IsSpace (s.dropWhile unicode.IsSpace) h
  simpa using this

/-- Trimming a trimmed text changes nothing. -/
theorem strings.TrimSpace_idem (s : GoString) :
    strings.TrimSpace (strings.TrimSpace s) = strings.TrimSpace s := by
  have h1 : (strings.TrimSpace s).dropWhile unicode.IsSpace = strings.TrimSpace s := by
    rw [List.dropWhile_eq_self_iff]
    intro hl
    have hne : strings.TrimSpace s ≠ [] := List.ne_nil_of_length_pos hl
    have := strings.TrimSpace_head s hne
    rw [List.get_mk_zero]
    simp [this]
  conv_lhs => rw [strings.TrimSpace_eq, h1]
  rw [strings.TrimSpace_eq]
  exact List.rdropWhile_idempotent _ _

/-! ## Query resolution -/

theorem readGraphQLQuery_of_args (args : List GoString) (stdin : Stdin) (h : args ≠ []) :
    readGraphQLQuery args stdin =
      if strings.TrimSpace (strings.Join args " ".toList) = [] then
        .error (.errorf "query is required")
      else .ok (strings.TrimSpace (strings.Join args " ".toList)) := by
  have hlen : args.length > 0 := List.length_pos.mpr h
  simp only [readGraphQLQuery, hlen, if_true]

theorem readGraphQLQuery_nil_piped (stdin : Stdin) (mode : Nat) (s : GoString)
    (hstat : stdin.Stat = .ok mode) (hmode : mode &&& ModeCharDevice = 0)
    (hread : stdin.ReadAll = .ok s) :
    readGraphQLQuery [] stdin =
      if strings.TrimSpace s = [] then .error (.errorf "query from stdin is empty")
      else .ok (strings.TrimSpace s) := by
  simp [readGraphQLQuery, hstat, hmode, hread]

theorem readGraphQLQuery_nil_terminal (stdin : Stdin) (mode : Nat)
    (hstat : stdin.Stat = .ok mode) (hmode : mode &&& ModeCharDevice ≠ 0) :
    readGraphQLQuery [] stdin = .error (.errorf "query is required (argument or stdin)") := by
  simp [readGraphQLQuery, hstat, hmode]

theorem readGraphQLQuery_ok_trimmed (args : List GoString) (stdin : Stdin) (q : GoString)
    (h : readGraphQLQuery args stdin = .ok q) :
    q ≠ [] ∧ ∃ s, q = strings.TrimSpace s := by
  unfold readGraphQLQuery at h
  split at h
  · simp only at h
    split at h
    · cases h
    · rename_i hq
      injection h with h
      subst h
      exact ⟨hq, _, rfl⟩
  · split at h
    · split at h
      · split at h
        · cases h
        · simp only at h
          split at h
          · cases h
          · rename_i hq
            injection h with h
            subst h
            exact ⟨hq, _, rfl⟩
      · cases h
    · cases h

/-- C1 (as amended): for every non-empty argument list, whatever standard input is,
`readGraphQLQuery` returns the space-joined arguments trimmed of white space when that
text is not empty, and fails with "query is required" when it is empty. -/
theorem readGraphQLQuery_args (args : List GoString) (stdin : Stdin) (h : args ≠ []) :
    (strings.TrimSpace (strings.Join args " ".toList) ≠ [] →
      readGraphQLQuery args stdin = .ok (strings.TrimSpace (strings.Join args " ".toList)))
    ∧ (strings.TrimSpace (strings.Join args " ".toList) = [] →
      readGraphQLQuery args stdin = .error (.errorf "query is required")) := by
  rw [readGraphQLQuery_of_args args stdin h]
  constructor
  · intro hq
    rw [if_neg hq]
  · intro hq
    rw [if_pos hq]

/-- C1 (as amended) at concrete inputs: three arguments joined and trimmed, and two
arguments of white space rejected. -/
theorem readGraphQLQuery_args_witness :
    readGraphQLQuery ["  query  \x7b".toList, "viewer".toList, "\x7d\n".toList] terminalStdin
      = .ok "query  \x7b viewer \x7d".toList
    ∧ readGraphQLQuery [" ".toList, "\t".toList] terminalStdin
      = .error (.errorf "query is required") :=
  ⟨(readGraphQLQuery_args ["  query  \x7b".toList, "viewer".toList, "\x7d\n".toList]
      terminalStdin (by decide)).1 (by decide),
   (readGraphQLQuery_args [" ".toList, "\t".toList] terminalStdin (by decide)).2 (by decide)⟩

/-- C1 (as stated) fails: the argument list holding one empty string is not empty, yet
`readGraphQLQuery` returns an error and not the (empty) joined and trimmed text; the
same happens for arguments made of white space. -/
theorem readGraphQLQuery_args_counterexample :
    (["".toList] : List GoString) ≠ []
    ∧ readGraphQLQuery ["".toList] (pipedStdin "q".toList)
        ≠ .ok (strings.TrimSpace (strings.Join ["".toList] " ".toList))
    ∧ readGraphQLQuery ["".toList] (pipedStdin "q".toList) = .error (.errorf "query is required")
    ∧ readGraphQLQuery [" ".toList, " ".toList] terminalStdin
        = .error (.errorf "query is required") := by
  decide

/-- C5: with standard input either an interactive terminal or a pipe with content,
`readGraphQLQuery` fails exactly when no argument is given and standard input is a
terminal, or the resolved text (the joined arguments when there are any, the content of
standard input otherwise) is empty once trimmed; otherwise it returns a string. -/
theorem readGraphQLQuery_fails_iff (args : List GoString) (stdin : Stdin) (mode : Nat)
    (content : GoString) (hstat : stdin.Stat = .ok mode)
    (hread : mode &&& ModeCharDevice = 0 → stdin.ReadAll = .ok content) :
    ((∃ err, readGraphQLQuery args stdin = .error err) ↔
      ((args = [] ∧ mode &&& ModeCharDevice ≠ 0) ∨
        strings.TrimSpace (if args ≠ [] then strings.Join args " ".toList else content) = []))
    ∧ (¬((args = [] ∧ mode &&& ModeCharDevice ≠ 0) ∨
        strings.TrimSpace (if args ≠ [] then strings.Join args " ".toList else content) = []) →
      ∃ q, readGraphQLQuery args stdin = .ok q) := by
  by_cases hargs : args = []
  · subst hargs
    by_cases hmode : mode &&& ModeCharDevice = 0
    · rw [readGraphQLQuery_nil_piped stdin mode content hstat hmode (hread hmode)]
      by_cases hq : strings.TrimSpace content = []
      · simp [hq]
      · simp [hq, hmode]
    · rw [readGraphQLQuery_nil_terminal stdin mode hstat hmode]
      simp [hmode]
  · rw [readGraphQLQuery_of_args args stdin hargs, if_pos hargs]
    generalize strings.TrimSpace (strings.Join args " ".toList) = t
    by_cases hq : t = []
    · simp [hq, hargs]
    · simp [hq, hargs]

/-- C5 at concrete inputs: a pipe holding only white space and a terminal without
arguments fail; an argument before a terminal and a pipe holding a query succeed. -/
theorem readGraphQLQuery_fails_iff_witness :
    (∃ err, readGraphQLQuery [] (pipedStdin " \n".toList) = .error err)
    ∧ (∃ err, readGraphQLQuery [] terminalStdin = .error err)
    ∧ (∃ q, readGraphQLQuery ["a".toList] terminalStdin = .ok q)
    ∧ (∃ q, readGraphQLQuery [] (pipedStdin " q\n".toList) = .ok q) :=
  ⟨(readGraphQLQuery_fails_iff [] (pipedStdin " \n".toList) 0 " \n".toList rfl
      (fun _ => rfl)).1.mpr (Or.inr (by decide)),
   (readGraphQLQuery_fails_iff [] terminalStdin ModeCharDevice [] rfl
      (fun h => absurd h (by decide))).1.mpr (Or.inl (by decide)),
   (readGraphQLQuery_fails_iff ["a".toList] terminalStdin ModeCharDevice [] rfl
      (fun h => absurd h (by decide))).2 (by decide),
   (readGraphQLQuery_fails_iff [] (pipedStdin " q\n".toList) 0 " q\n".toList rfl
      (fun _ => rfl)).2 (by decide)⟩

/-- C6: with no argument and standard input a pipe whose content `s` is not empty once
trimmed, `readGraphQLQuery` returns `s` without its leading and trailing white space:
`s` is the result between a prefix and a suffix of white space, and the result neither
begins nor ends with white space. -/
theorem readGraphQLQuery_stdin (stdin : Stdin) (mode : Nat) (s : GoString)
    (hstat : stdin.Stat = .ok mode) (hmode : mode &&& ModeCharDevice = 0)
    (hread : stdin.ReadAll = .ok s) (hne : strings.TrimSpace s ≠ []) :
    ∃ q pre post : GoString, readGraphQLQuery [] stdin = .ok q
      ∧ q = strings.TrimSpace s
      ∧ s = pre ++ q ++ post
      ∧ (∀ c ∈ pre, unicode.IsSpace c = true) ∧ (∀ c ∈ post, unicode.IsSpace c = true)
      ∧ (∀ hq : q ≠ [], unicode.IsSpace (q.head hq) = false)
      ∧ (∀ hq : q ≠ [], unicode.IsSpace (q.getLast hq) = false) := by
  obtain ⟨pre, post, hs, hpre, hpost⟩ := strings.TrimSpace_decomp s
  refine ⟨strings.TrimSpace s, pre, post, ?_, rfl, hs, hpre, hpost, ?_, ?_⟩
  · rw [readGraphQLQuery_nil_piped stdin mode s hstat hmode hread, if_neg hne]
  · intro hq
    exact strings.TrimSpace_head s hq
  · intro hq
    exact strings.TrimSpace_getLast s hq

/-- C6 at the content `"  q  "`, which gives `"q"`, and at a content with interior white
space, which is kept. -/
theorem readGraphQLQuery_stdin_witness :
    readGraphQLQuery [] (pipedStdin "  q  ".toList) = .ok "q".toList
    ∧ readGraphQLQuery [] (pipedStdin "\n\tquery  Q \n".toList) = .ok "query  Q".toList := by
  obtain ⟨q, _, _, h, hq, _⟩ :=
    readGraphQLQuery_stdin (pipedStdin "  q  ".toList) 0 "  q  ".toList rfl (by decide) rfl
      (by decide)
  obtain ⟨q1, _, _, h1, hq1, _⟩ :=
    readGraphQLQuery_stdin (pipedStdin "\n\tquery  Q \n".toList) 0 "\n\tquery  Q \n".toList
      rfl (by decide) rfl (by decide)
  rw [h, hq, h1, hq1]
  decide

/-! ## Maps and the decoder -/

theorem GoMap.get_set (m : GoMap) (k : GoString) (v : GoValue) (k1 : GoString) :
    GoMap.get (GoMap.set m k v) k1 = if k = k1 then some v else GoMap.get m k1 := by
  induction m with
  | nil => simp [GoMap.set, GoMap.get]
  | cons hd tl ih =>
    obtain ⟨a, b⟩ := hd
    by_cases hak : a = k
    · subst hak
      by_cases h1 : a = k1 <;> simp [GoMap.set, GoMap.get, h1]
    · by_cases h1 : a = k1
      · subst h1
        have : ¬ k = a := fun h => hak h.symm
        simp [GoMap.set, GoMap.get, hak, this]
      · simp [GoMap.set, GoMap.get, hak, h1, ih]

theorem GoMap.mem_keys_set (m : GoMap) (k : GoString) (v : GoValue) (k1 : GoString) :
    k1 ∈ GoMap.keys (GoMap.set m k v) ↔ k1 = k ∨ k1 ∈ GoMap.keys m := by
  induction m with
  | nil => simp [GoMap.set, GoMap.keys]
  | cons hd tl ih =>
    obtain ⟨a, b⟩ := hd
    by_cases hak : a = k
    · subst hak
      simp [GoMap.set, GoMap.keys]
    · simp only [GoMap.keys] at ih
      simp only [GoMap.set, hak, if_false, GoMap.keys, List.map_cons, List.mem_cons, ih]
      tauto

theorem GoMap.nodup_keys_set (m : GoMap) (k : GoString) (v : GoValue)
    (h : (GoMap.keys m).Nodup) : (GoMap.keys (GoMap.set m k v)).Nodup := by
  induction m with
  | nil => simp [GoMap.set, GoMap.keys]
  | cons hd tl ih =>
    obtain ⟨a, b⟩ := hd
    have hnd : a ∉ GoMap.keys tl ∧ (GoMap.keys tl).Nodup := by
      simpa [GoMap.keys] using h
    by_cases hak : a = k
    · subst hak
      simpa [GoMap.set, GoMap.keys] using h
    · have h1 : a ∉ GoMap.keys (GoMap.set tl k v) := by
        rw [GoMap.mem_keys_set]
        rintro (h2 | h2)
        · exact hak h2
        · exact hnd.1 h2
      have h2 := ih hnd.2
      simp only [GoMap.keys] at h1 h2
      simp [GoMap.set, hak, GoMap.keys, h1, h2]

theorem json.objectInterface_get (members : List (GoString × JSON)) (m : GoMap)
    (k : GoString) :
    GoMap.get (json.objectInterface m members).1 k =
      match JSON.member k members with
      | some x => some (json.valueInterface x).1
      | none => GoMap.get m k := by
  induction members generalizing m with
  | nil => simp [json.objectInterface, JSON.member]
  | cons hd tl ih =>
    obtain ⟨a, x⟩ := hd
    simp only [json.objectInterface, JSON.member]
    rw [ih]
    cases hm : JSON.member k tl with
    | some w => simp
    | none =>
      simp only [GoMap.get_set]
      by_cases hak : a = k <;> simp [hak]

theorem json.objectInterface_keys (members : List (GoString × JSON)) (m : GoMap)
    (k : GoString) :
    k ∈ GoMap.keys (json.objectInterface m members).1 ↔
      k ∈ GoMap.keys m ∨ k ∈ members.map Prod.fst := by
  induction members generalizing m with
  | nil => simp [json.objectInterface]
  | cons hd tl ih =>
    obtain ⟨a, x⟩ := hd
    simp only [json.objectInterface]
    rw [ih, GoMap.mem_keys_set]
    simp only [List.map_cons, List.mem_cons]
    tauto

theorem json.objectInterface_nodup (members : List (GoString × JSON)) (m : GoMap)
    (h : (GoMap.keys m).Nodup) : (GoMap.keys (json.objectInterface m members).1).Nodup := by
  induction members generalizing m with
  | nil => simpa [json.objectInterface] using h
  | cons hd tl ih =>
    obtain ⟨a, x⟩ := hd
    simp only [json.objectInterface]
    exact ih _ (GoMap.nodup_keys_set m a _ h)

theorem json.saveError_eq_none (a b : Option GoError) :
    json.saveError a b = none ↔ a = none ∧ b = none := by
  cases a <;> simp [json.saveError]

mutual
theorem json.valueInterface_err (v : JSON) :
    (json.valueInterface v).2 = none ↔ JSON.numbersFit v = true := by
  cases v with
  | null => simp [json.valueInterface, JSON.numbersFit]
  | bool b => simp [json.valueInterface, JSON.numbersFit]
  | string s => simp [json.valueInterface, JSON.numbersFit]
  | number lit =>
    simp only [json.valueInterface, json.convertNumber, JSON.numbersFit]
    cases strconv.ParseFloat lit <;> simp
  | array elems =>
    simp only [json.valueInterface, JSON.numbersFit]
    exact json.arrayInterface_err elems
  | object members =>
    simp only [json.valueInterface, JSON.numbersFit]
    exact json.objectInterface_err members []
theorem json.arrayInterface_err (elems : List JSON) :
    (json.arrayInterface elems).2 = none ↔ JSON.numbersFitList elems = true := by
  cases elems with
  | nil => simp [json.arrayInterface, JSON.numbersFitList]
  | cons x xs =>
    simp only [json.arrayInterface, JSON.numbersFitList, json.saveError_eq_none,
      Bool.and_eq_true]
    rw [json.valueInterface_err x, json.arrayInterface_err xs]
theorem json.objectInterface_err (members : List (GoString × JSON)) (m : GoMap) :
    (json.objectInterface m members).2 = none ↔ JSON.numbersFitMembers members = true := by
  cases members with
  | nil => simp [json.objectInterface, JSON.numbersFitMembers]
  | cons hd tl =>
    obtain ⟨a, x⟩ := hd
    simp only [json.objectInterface, JSON.numbersFitMembers, json.saveError_eq_none,
      Bool.and_eq_true]
    rw [json.valueInterface_err x, json.objectInterface_err tl]
end

theorem json.checkValid_nil :
    json.checkValid [] = .error (.syntaxError "unexpected end of JSON input") := by
  decide

theorem readGraphQLVariables_eq (varsStr : GoString) (h : varsStr ≠ []) :
    readGraphQLVariables varsStr =
      match json.Unmarshal varsStr with
      | (_, some err) => .error (.wrap "failed to parse variables JSON: " err)
      | (vars, none) => .ok vars := by
  simp [readGraphQLVariables, readGraphQLVariablesWith, h]

/-! ## Variable resolution -/

/-- C2 (as amended): for every non-empty `--vars` value, a value that is not valid JSON
makes `readGraphQLVariables` fail with the scanner's diagnostic wrapped under the prefix
"failed to parse variables JSON: "; valid JSON that is an array, a string, a number or
a boolean makes it fail with the decoder's type error wrapped the same way; JSON `null`
is accepted and gives absent variables; and every error it returns wraps the
diagnostic of `json.Unmarshal` under that prefix. -/
theorem readGraphQLVariables_invalid (varsStr : GoString) (hne : varsStr ≠ []) :
    (∀ err, json.checkValid varsStr = .error err →
      readGraphQLVariables varsStr = .error (.wrap "failed to parse variables JSON: " err))
    ∧ (∀ v, json.checkValid varsStr = .ok v → (∀ members, v ≠ .object members) → v ≠ .null →
      ∃ kind, kind ∈ ["array", "string", "number", "bool"]
        ∧ readGraphQLVariables varsStr = .error
            (.wrap "failed to parse variables JSON: " (.unmarshalTypeError kind mapTypeName)))
    ∧ (json.checkValid varsStr = .ok .null → readGraphQLVariables varsStr = .ok none)
    ∧ (∀ err, readGraphQLVariables varsStr = .error err →
      ∃ diag, (json.Unmarshal varsStr).2 = some diag ∧ err.Unwrap = some diag
        ∧ err.Error = "failed to parse variables JSON: " ++ diag.Error) := by
  rw [readGraphQLVariables_eq varsStr hne]
  refine ⟨?_, ?_, ?_, ?_⟩
  · intro err h
    simp [json.Unmarshal, h]
  · intro v h hobj hnull
    cases v with
    | null => exact absurd rfl hnull
    | object members => exact absurd rfl (hobj members)
    | array elems => exact ⟨"array", by simp, by simp [json.Unmarshal, h]⟩
    | string x => exact ⟨"string", by simp, by simp [json.Unmarshal, h]⟩
    | number lit => exact ⟨"number", by simp, by simp [json.Unmarshal, h]⟩
    | bool b => exact ⟨"bool", by simp, by simp [json.Unmarshal, h]⟩
  · intro h
    simp [json.Unmarshal, h]
  · intro err h
    rcases hu : json.Unmarshal varsStr with ⟨m, e⟩
    rw [hu] at h
    cases e with
    | none => simp at h
    | some diag =>
      simp only [Except.error.injEq] at h
      subst h
      exact ⟨diag, rfl, rfl, rfl⟩

/-- C2 (as amended) at the value of the test `TestReadGraphQLVariables_InvalidJSON` and
at an array. -/
theorem readGraphQLVariables_invalid_witness :
    readGraphQLVariables "\x7binvalid json\x7d".toList = .error
      (.wrap "failed to parse variables JSON: "
        (.syntaxError "invalid character 'i' looking for beginning of object key string"))
    ∧ (∃ kind, kind ∈ ["array", "string", "number", "bool"]
        ∧ readGraphQLVariables "[1]".toList = .error
            (.wrap "failed to parse variables JSON: " (.unmarshalTypeError kind mapTypeName))) :=
  ⟨(readGraphQLVariables_invalid "\x7binvalid json\x7d".toList (by decide)).1 _ (by decide!),
   (readGraphQLVariables_invalid "[1]".toList (by decide)).2.1 (.array [.number "1".toList])
      (by decide!) (by intro members h; cases h) (by intro h; cases h)⟩

/-- C2 (as stated) fails: `null` is a non-empty `--vars` value and well-formed JSON that
is not an object, yet `readGraphQLVariables` returns no error (and a nil mapping). -/
theorem readGraphQLVariables_invalid_counterexample :
    "null".toList ≠ []
    ∧ json.checkValid "null".toList = .ok .null
    ∧ readGraphQLVariables "null".toList = .ok none
    ∧ readGraphQLVariables " null\n".toList = .ok none := by
  decide!

/-- C7 (as amended): for every `--vars` value that is a valid JSON object, when every
number written in it is within the range of `float64`, `readGraphQLVariables` returns no
error and a non-nil mapping whose keys are exactly the member names, each mapped to the
decoded value of the last member of that name, a number being decoded as the `float64`
nearest to it; when some number is out of range, it returns an error. -/
theorem readGraphQLVariables_object (varsStr : GoString) (members : List (GoString × JSON))
    (hvalid : json.checkValid varsStr = .ok (.object members)) :
    (JSON.numbersFitMembers members = true →
      ∃ m : GoMap, readGraphQLVariables varsStr = .ok (some m)
        ∧ (∀ k, k ∈ GoMap.keys m ↔ k ∈ members.map Prod.fst)
        ∧ (GoMap.keys m).Nodup
        ∧ (∀ k, GoMap.get m k =
            (JSON.member k members).map (fun x => (json.valueInterface x).1))
        ∧ (∀ k lit, JSON.member k members = some (.number lit) →
            ∃ f, strconv.ParseFloat lit = some f ∧ GoMap.get m k = some (.float64 f)))
    ∧ (JSON.numbersFitMembers members = false →
      ∃ err, readGraphQLVariables varsStr
        = .error (.wrap "failed to parse variables JSON: " err)) := by
  have hne : varsStr ≠ [] := by
    intro h0
    rw [h0, json.checkValid_nil] at hvalid
    cases hvalid
  rw [readGraphQLVariables_eq varsStr hne]
  simp only [json.Unmarshal, hvalid]
  constructor
  · intro hfit
    have herr := (json.objectInterface_err members []).mpr hfit
    have hget : ∀ k, GoMap.get (json.objectInterface [] members).1 k =
        (JSON.member k members).map (fun x => (json.valueInterface x).1) := by
      intro k
      rw [json.objectInterface_get]
      cases JSON.member k members <;> simp [GoMap.get]
    refine ⟨(json.objectInterface [] members).1, ?_, ?_, ?_, hget, ?_⟩
    · rw [herr]
    · intro k
      rw [json.objectInterface_keys]
      simp [GoMap.keys]
    · exact json.objectInterface_nodup members [] (by simp [GoMap.keys])
    · intro k lit hk
      rw [hget, hk]
      simp only [Option.map_some', json.valueInterface, json.convertNumber]
      cases hp : strconv.ParseFloat lit with
      | some f => exact ⟨f, rfl, rfl⟩
      | none =>
        exfalso
        have hfitk : ∀ (ms : List (GoString × JSON)), JSON.numbersFitMembers ms = true →
            JSON.member k ms = some (.number lit) → False := by
          intro ms
          induction ms with
          | nil => intro _ h; simp [JSON.member] at h
          | cons hd tl ih =>
            obtain ⟨a, x⟩ := hd
            intro hf hmem
            simp only [JSON.numbersFitMembers, Bool.and_eq_true] at hf
            simp only [JSON.member] at hmem
            cases htl : JSON.member k tl with
            | some w =>
              rw [htl] at hmem
              exact ih hf.2 (by rw [htl, Option.some.inj hmem])
            | none =>
              rw [htl] at hmem
              by_cases hak : a = k
              · simp only [hak, if_true, Option.some.injEq] at hmem
                rw [hmem] at hf
                simp [JSON.numbersFit, hp] at hf
              · simp [hak] at hmem
        exact hfitk members hfit hk
  · intro hfit
    have herr : (json.objectInterface [] members).2 ≠ none := by
      intro h
      rw [(json.objectInterface_err members []).mp h] at hfit
      cases hfit
    cases he : (json.objectInterface [] members).2 with
    | none => exact absurd he herr
    | some err => exact ⟨err, rfl⟩

/-- C7 (as amended) at the value of the test `TestReadGraphQLVariables_ValidJSON`, with
the mappings it and the empty object and the object with member `a` give: `⟨5, 1⟩` is the
`float64` 10 and `⟨1, 0⟩` the `float64` 1. -/
theorem readGraphQLVariables_object_witness :
    (∃ m : GoMap,
      readGraphQLVariables "\x7b\"teamKey\":\"ENG\",\"limit\":10\x7d".toList = .ok (some m)
        ∧ (∀ k, k ∈ GoMap.keys m ↔ k ∈ ["teamKey".toList, "limit".toList])
        ∧ (GoMap.keys m).Nodup
        ∧ (∀ k, GoMap.get m k =
            (JSON.member k [("teamKey".toList, .string "ENG".toList),
              ("limit".toList, .number "10".toList)]).map
              (fun x => (json.valueInterface x).1))
        ∧ (∀ k lit, JSON.member k [("teamKey".toList, .string "ENG".toList),
              ("limit".toList, .number "10".toList)] = some (.number lit) →
            ∃ f, strconv.ParseFloat lit = some f ∧ GoMap.get m k = some (.float64 f)))
    ∧ readGraphQLVariables "\x7b\"teamKey\":\"ENG\",\"limit\":10\x7d".toList
        = .ok (some [("teamKey".toList, .string "ENG".toList),
            ("limit".toList, .float64 ⟨5, 1⟩)])
    ∧ readGraphQLVariables "\x7b\"a\":1\x7d".toList
        = .ok (some [("a".toList, .float64 ⟨1, 0⟩)])
    ∧ readGraphQLVariables "\x7b\x7d".toList = .ok (some []) :=
  ⟨(readGraphQLVariables_object "\x7b\"teamKey\":\"ENG\",\"limit\":10\x7d".toList
      [("teamKey".toList, .string "ENG".toList), ("limit".toList, .number "10".toList)]
      (by decide!)).1 (by decide!),
   by decide!, by decide!, by decide!⟩

/-- C7 (as stated) fails: the value `\x7b"a":1e400\x7d` is the text of a valid JSON
object, yet `readGraphQLVariables` returns an error, for `1e400` is not a `float64`. -/
theorem readGraphQLVariables_object_counterexample :
    json.checkValid "\x7b\"a\":1e400\x7d".toList
      = .ok (.object [("a".toList, .number "1e400".toList)])
    ∧ readGraphQLVariables "\x7b\"a\":1e400\x7d".toList = .error
        (.wrap "failed to parse variables JSON: "
          (.unmarshalTypeError "number 1e400" "float64")) := by
  decide!

/-- C10: for the empty `--vars` value `readGraphQLVariables` returns absent variables
(the nil mapping) and no error, and does so whatever the JSON decoder would do: the
decoder is not consulted. -/
theorem readGraphQLVariables_empty :
    readGraphQLVariables [] = .ok none
    ∧ ∀ unmarshal : GoString → Option GoMap × Option GoError,
        readGraphQLVariablesWith unmarshal [] = .ok none := by
  constructor
  · rfl
  · intro unmarshal
    rfl

/-! ## The request-envelope invariant and the command -/

theorem readGraphQLQuery_ok_invariant (args : List GoString) (stdin : Stdin) (q : GoString)
    (h : readGraphQLQuery args stdin = .ok q) :
    q ≠ [] ∧ strings.TrimSpace q ≠ [] ∧ strings.TrimSpace q = q
      ∧ (∀ hq : q ≠ [], unicode.IsSpace (q.head hq) = false)
      ∧ (∀ hq : q ≠ [], unicode.IsSpace (q.getLast hq) = false) := by
  obtain ⟨hq, s, hs⟩ := readGraphQLQuery_ok_trimmed args stdin q h
  subst hs
  have hidem := strings.TrimSpace_idem s
  refine ⟨hq, ?_, hidem, ?_, ?_⟩
  · rw [hidem]
    exact hq
  · intro h1
    exact strings.TrimSpace_head s h1
  · intro h1
    exact strings.TrimSpace_getLast s h1

theorem graphqlCmd.Run_ExecuteRaw (env : Env) (args : List GoString) (authHeader : String)
    (q : GoString) (vars : Option GoMap)
    (h : Event.ExecuteRaw authHeader q vars ∈ graphqlCmd.Run env args) :
    readGraphQLQuery args env.stdin = .ok q := by
  unfold graphqlCmd.Run at h
  split at h
  · simp at h
  · split at h
    · simp at h
    · rename_i query hquery
      split at h
      · simp at h
      · split at h
        · simp at h
          rw [hquery, h.2.1]
        · simp at h
          rw [hquery, h.2.1]

/-- C8: whenever `readGraphQLQuery` returns without error, through the arguments or
through standard input, the query is not empty, is not empty once trimmed, equals its
own trimmed form and neither begins nor ends with white space; and so does every query
the `graphql` command passes to `ExecuteRaw`. -/
theorem query_invariant (args : List GoString) (stdin : Stdin) :
    (∀ q, readGraphQLQuery args stdin = .ok q →
      q ≠ [] ∧ strings.TrimSpace q ≠ [] ∧ strings.TrimSpace q = q
        ∧ (∀ hq : q ≠ [], unicode.IsSpace (q.head hq) = false)
        ∧ (∀ hq : q ≠ [], unicode.IsSpace (q.getLast hq) = false))
    ∧ (∀ (env : Env) (authHeader : String) (q : GoString) (vars : Option GoMap),
      Event.ExecuteRaw authHeader q vars ∈ graphqlCmd.Run env args →
      q ≠ [] ∧ strings.TrimSpace q ≠ [] ∧ strings.TrimSpace q = q
        ∧ (∀ hq : q ≠ [], unicode.IsSpace (q.head hq) = false)
        ∧ (∀ hq : q ≠ [], unicode.IsSpace (q.getLast hq) = false)) := by
  constructor
  · intro q h
    exact readGraphQLQuery_ok_invariant args stdin q h
  · intro env authHeader q vars h
    exact readGraphQLQuery_ok_invariant args env.stdin q
      (graphqlCmd.Run_ExecuteRaw env args authHeader q vars h)

/-- C8 at a query piped through standard input. -/
theorem query_invariant_witness :
    readGraphQLQuery [] (pipedStdin "\n  query Q \x7b viewer \x7b id \x7d \x7d \n".toList)
      = .ok "query Q \x7b viewer \x7b id \x7d \x7d".toList
    ∧ "query Q \x7b viewer \x7b id \x7d \x7d".toList ≠ []
    ∧ strings.TrimSpace "query Q \x7b viewer \x7b id \x7d \x7d".toList
        = "query Q \x7b viewer \x7b id \x7d \x7d".toList :=
  have h : readGraphQLQuery [] (pipedStdin "\n  query Q \x7b viewer \x7b id \x7d \x7d \n".toList)
      = .ok "query Q \x7b viewer \x7b id \x7d \x7d".toList := by decide
  have hinv := (query_invariant []
    (pipedStdin "\n  query Q \x7b viewer \x7b id \x7d \x7d \n".toList)).1 _ h
  ⟨h, hinv.1, hinv.2.2.1⟩

/-- C9: when `auth.GetAuthHeader` fails, the `graphql` command reports "Not
authenticated. Run 'linctl auth' first." and exits with status 1, and that is all it
does: for every argument list, `--vars` value and standard input, `readGraphQLQuery`
(hence standard input), `readGraphQLVariables` and `ExecuteRaw` are not invoked. -/
theorem graphqlCmd_unauthenticated (env : Env) (args : List GoString) (err : GoError)
    (h : env.GetAuthHeader = .error err) :
    graphqlCmd.Run env args =
      [.outputError "Not authenticated. Run 'linctl auth' first." env.plaintext env.jsonOut,
       .osExit 1]
    ∧ Event.readGraphQLQuery ∉ graphqlCmd.Run env args
    ∧ Event.readGraphQLVariables ∉ graphqlCmd.Run env args
    ∧ ∀ authHeader q vars, Event.ExecuteRaw authHeader q vars ∉ graphqlCmd.Run env args := by
  have hrun : graphqlCmd.Run env args =
      [.outputError "Not authenticated. Run 'linctl auth' first." env.plaintext env.jsonOut,
       .osExit 1] := by
    simp [graphqlCmd.Run, h]
  rw [hrun]
  refine ⟨rfl, ?_, ?_, ?_⟩
  · simp
  · simp
  · intro authHeader q vars
    simp

/-- C9 at a run with a query argument, a `--vars` value and a piped standard input. -/
theorem graphqlCmd_unauthenticated_witness :
    graphqlCmd.Run unauthenticatedEnv ["\x7b viewer \x7b id \x7d \x7d".toList] =
      [.outputError "Not authenticated. Run 'linctl auth' first." false true, .osExit 1] :=
  (graphqlCmd_unauthenticated unauthenticatedEnv ["\x7b viewer \x7b id \x7d \x7d".toList]
    (.errorf "not authenticated") rfl).1

/-! ## `ExecuteRaw` -/

theorem Scanner.run_append (s : Scanner) (a b : GoString) :
    Scanner.run s (a ++ b) =
      match Scanner.run s a with
      | .error err => .error err
      | .ok t => Scanner.run t b := by
  induction a generalizing s with
  | nil => simp [Scanner.run]
  | cons c cs ih =>
    simp only [List.cons_append, Scanner.run]
    cases Scanner.next s c with
    | error err => simp
    | ok t => simp [ih]

theorem Scanner.run_plain (m : GoString) (hm : ∀ c ∈ m, json.isPlain c = true)
    (s : Scanner) (hs : s.step = .inString) :
    Scanner.run s m = .ok { s with literal := s.literal ++ m } := by
  induction m generalizing s with
  | nil => simp [Scanner.run]
  | cons c cs ih =>
    have hc := hm c (List.mem_cons_self _ _)
    simp only [json.isPlain, Bool.and_eq_true, bne_iff_ne, ne_eq, decide_eq_true_eq] at hc
    have h1 : ¬ c.toNat < 0x20 := by omega
    have hnext : Scanner.next s c = .ok { s with literal := s.literal ++ [c] } := by
      simp [Scanner.next, hs, hc.1.1, hc.1.2, h1]
    simp only [Scanner.run, hnext]
    have h2 := ih (fun x hx => hm x (List.mem_cons_of_mem _ hx))
      { s with literal := s.literal ++ [c] } hs
    rw [h2]
    simp

theorem json.unquoteAux_plain (m : GoString) (hm : ∀ c ∈ m, json.isPlain c = true) :
    json.unquoteAux none m = m := by
  induction m with
  | nil => simp [json.unquoteAux]
  | cons c cs ih =>
    have hc := hm c (List.mem_cons_self _ _)
    simp only [json.isPlain, Bool.and_eq_true, bne_iff_ne, ne_eq, decide_eq_true_eq] at hc
    have ih1 := ih (fun x hx => hm x (List.mem_cons_of_mem _ hx))
    unfold json.unquoteAux
    split
    · rename_i heq
      simp at heq
      exact absurd heq.1 hc.1.2
    · rename_i heq
      simp at heq
      exact absurd heq.1 hc.1.2
    · rename_i heq
      simp at heq
      obtain ⟨h1, h2⟩ := heq
      subst h1 h2
      simp [ih1]
    · rename_i heq
      simp at heq

theorem decodeEnvelope_errorBody (m : GoString) (hm : ∀ c ∈ m, json.isPlain c = true) :
    decodeEnvelope (errorBody m) = .ok ⟨none, some [⟨m, [], [], none⟩]⟩ := by
  unfold errorBody
  have hpre : Scanner.run Scanner.reset "\x7b\"data\":null,\"errors\":[\x7b\"message\":\"".toList
      = .ok ⟨.inString,
          [.parseObjectValue [] (some "message".toList), .parseArrayValue [],
           .parseObjectValue [("data".toList, .null)] (some "errors".toList)],
          [], false, none⟩ := by
    decide!
  have hvalid : json.checkValid ("\x7b\"data\":null,\"errors\":[\x7b\"message\":\"".toList ++ m
        ++ "\"\x7d]\x7d".toList)
      = .ok (.object [("data".toList, .null),
          ("errors".toList, .array [.object [("message".toList, .string m)]])]) := by
    unfold json.checkValid
    rw [List.append_assoc, Scanner.run_append, hpre]
    simp only
    rw [Scanner.run_append, Scanner.run_plain m hm _ rfl]
    simp [Scanner.run, Scanner.next, Scanner.deliver, Scanner.stateEndValue,
      Scanner.popParseState, Scanner.eof, json.isSpace, json.unquote,
      json.unquoteAux_plain m hm]
  unfold decodeEnvelope
  rw [hvalid]
  simp [JSON.member, decodeGraphQLErrors, decodeGraphQLError]


/-- C3: when the transport yields a response whose status is in 200..299 and whose body
decodes as a response envelope, `ExecuteRaw` returns exactly that envelope and no
error, whatever its `errors` list holds; for the body with null `data` and the one
error of message `m` (a message written without escapes), the result has null data and
exactly one error, of message `m`. -/
theorem ExecuteRaw_returns_envelope :
    (∀ (c : Client) (query : GoString) (vars : Option GoMap) (resp : HTTPResponse)
        (envelope : GraphQLResponse),
      c.httpClient ⟨"POST", c.baseURL, "application/json", c.authHeader, ⟨query, vars⟩⟩
          = .ok resp →
      200 ≤ resp.StatusCode ∧ resp.StatusCode ≤ 299 →
      decodeEnvelope resp.Body = .ok envelope →
      c.ExecuteRaw query vars = .ok envelope)
    ∧ (∀ (c : Client) (query : GoString) (vars : Option GoMap) (status : Nat) (m : GoString),
      c.httpClient ⟨"POST", c.baseURL, "application/json", c.authHeader, ⟨query, vars⟩⟩
          = .ok ⟨status, errorBody m⟩ →
      200 ≤ status ∧ status ≤ 299 →
      (∀ ch ∈ m, json.isPlain ch = true) →
      c.ExecuteRaw query vars = .ok ⟨none, some [⟨m, [], [], none⟩]⟩) := by
  have key : ∀ (c : Client) (query : GoString) (vars : Option GoMap) (resp : HTTPResponse)
      (envelope : GraphQLResponse),
      c.httpClient ⟨"POST", c.baseURL, "application/json", c.authHeader, ⟨query, vars⟩⟩
          = .ok resp →
      200 ≤ resp.StatusCode ∧ resp.StatusCode ≤ 299 →
      decodeEnvelope resp.Body = .ok envelope →
      c.ExecuteRaw query vars = .ok envelope := by
    intro c query vars resp envelope hresp hstatus hbody
    have h : ¬(resp.StatusCode < 200 ∨ 299 < resp.StatusCode) := by omega
    simp [Client.ExecuteRaw, hresp, h, hbody]
  refine ⟨key, ?_⟩
  intro c query vars status m hresp hstatus hm
  exact key c query vars ⟨status, errorBody m⟩ _ hresp hstatus (decodeEnvelope_errorBody m hm)

/-- C3 at the body with the one error "bad field" and at the body of the test
`TestExecuteRaw_WithGraphQLErrors`, both with status 200. -/
theorem ExecuteRaw_returns_envelope_witness :
    (answeringClient 200 (errorBody "bad field".toList)).ExecuteRaw
      "\x7b viewer \x7b invalid \x7d \x7d".toList none
      = .ok ⟨none, some [⟨"bad field".toList, [], [], none⟩]⟩
    ∧ (answeringClient 200 testBodyWithGraphQLErrors).ExecuteRaw
      "\x7b viewer \x7b invalid \x7d \x7d".toList none
      = .ok ⟨none, some [⟨"Field 'invalid' doesn't exist on type 'Viewer'".toList,
          [⟨1, 10⟩], [.name "viewer".toList, .name "invalid".toList],
          some [("code".toList, .string "FIELD_NOT_FOUND".toList)]⟩]⟩ :=
  ⟨ExecuteRaw_returns_envelope.2 _ _ none 200 "bad field".toList rfl (by decide) (by decide),
   ExecuteRaw_returns_envelope.1 _ _ none ⟨200, testBodyWithGraphQLErrors⟩ _
      rfl (by decide) (by decide!)⟩

/-- C4: when the transport yields a response whose status is outside 200..299,
`ExecuteRaw` fails with `HTTPStatusError` and returns no envelope, whatever the body
is. -/
theorem ExecuteRaw_status_error (c : Client) (query : GoString) (vars : Option GoMap)
    (resp : HTTPResponse)
    (hresp : c.httpClient
      ⟨"POST", c.baseURL, "application/json", c.authHeader, ⟨query, vars⟩⟩ = .ok resp)
    (hstatus : resp.StatusCode < 200 ∨ 299 < resp.StatusCode) :
    c.ExecuteRaw query vars = .error (.HTTPStatusError resp.StatusCode resp.Body)
    ∧ ∀ envelope, c.ExecuteRaw query vars ≠ .ok envelope := by
  have h : c.ExecuteRaw query vars = .error (.HTTPStatusError resp.StatusCode resp.Body) := by
    simp [Client.ExecuteRaw, hresp, hstatus]
  rw [h]
  exact ⟨rfl, fun envelope h1 => by cases h1⟩

/-- C4 at status 401, with a body that decodes as a response envelope and with the body
of the test `TestExecuteRaw_HTTPError`. -/
theorem ExecuteRaw_status_error_witness :
    decodeEnvelope "\x7b\"data\":\x7b\"viewer\":null\x7d\x7d".toList
      = .ok ⟨some (.object [("viewer".toList, .null)]), none⟩
    ∧ (answeringClient 401 "\x7b\"data\":\x7b\"viewer\":null\x7d\x7d".toList).ExecuteRaw
        "\x7b viewer \x7b id \x7d \x7d".toList none
      = .error (.HTTPStatusError 401 "\x7b\"data\":\x7b\"viewer\":null\x7d\x7d".toList)
    ∧ (answeringClient 401 "Unauthorized".toList).ExecuteRaw
        "\x7b viewer \x7b id \x7d \x7d".toList none
      = .error (.HTTPStatusError 401 "Unauthorized".toList) :=
  ⟨by decide!,
   (ExecuteRaw_status_error _ _ none
      ⟨401, "\x7b\"data\":\x7b\"viewer\":null\x7d\x7d".toList⟩ rfl (by decide)).1,
   (ExecuteRaw_status_error _ _ none ⟨401, "Unauthorized".toList⟩ rfl (by decide)).1⟩

end Linctl
